import Mathlib

/-!
Verification development for the Git-Scape-API digest engine.

The repository contains two revisions of the traversal/digest engine:
`src/app/converter.py` (the current engine, modelled in namespace `App`)
and `src/converter.py` (the earlier engine, modelled in namespace `Legacy`).
Both are embedded shallowly over a snapshot model of a filesystem tree:
a file carries a reported stat-size and a content string (kept separate,
as `stat` and `read` are separate system calls), directories and symbolic
links are explicit constructors.  `os.walk` with its default
`followlinks=False` is modelled by `visits`/`walkFiles`: symlinked
directories are listed but never descended into, symlinked files are
listed among a directory's files.
-/

set_option maxRecDepth 8000

namespace GitScape

/-- One filesystem entry of the snapshot: a regular file (with its stat size in
bytes and its decoded content), a directory, a symlink resolving to a regular
file, or a symlink resolving to a directory. -/
inductive Entry : Type where
  | file (name : String) (size : Nat) (content : String)
  | dir (name : String) (children : List Entry)
  | linkFile (name : String) (size : Nat) (content : String)
  | linkDir (name : String) (children : List Entry)

/-- ASCII lowercasing of a single character; models Python `str.lower` on the
ASCII names and extensions this code compares. -/
def charLower : Char → Char
  | 'A' => 'a' | 'B' => 'b' | 'C' => 'c' | 'D' => 'd' | 'E' => 'e' | 'F' => 'f'
  | 'G' => 'g' | 'H' => 'h' | 'I' => 'i' | 'J' => 'j' | 'K' => 'k' | 'L' => 'l'
  | 'M' => 'm' | 'N' => 'n' | 'O' => 'o' | 'P' => 'p' | 'Q' => 'q' | 'R' => 'r'
  | 'S' => 's' | 'T' => 't' | 'U' => 'u' | 'V' => 'v' | 'W' => 'w' | 'X' => 'x'
  | 'Y' => 'y' | 'Z' => 'z'
  | c => c

/-- Models Python `str.lower` (ASCII). -/
def lowerStr (s : String) : String := ⟨s.data.map charLower⟩

/-- Index of the last '.' in a character list; models `str.rfind('.')`. -/
def lastDotPos : List Char → Option Nat
  | [] => none
  | c :: cs =>
    match lastDotPos cs with
    | some j => some (j + 1)
    | none => if c = '.' then some 0 else none

/-- `pathlib.PurePath.suffix` of a path's final component: the substring from
the last dot, provided that dot is neither the first nor the last character;
otherwise the empty string. -/
def pathSuffix (name : String) : String :=
  match lastDotPos name.data with
  | none => ""
  | some i => if 0 < i ∧ i < name.data.length - 1 then ⟨name.data.drop i⟩ else ""

/-- A file as seen during the walk: the directory components of its location
relative to the repository root, its name, stat size, and content. -/
structure FileCtx where
  relParts : List String
  name : String
  size : Nat
  content : String
deriving DecidableEq, Repr

/-- `path.relative_to(repo_path)` rendered with '/' separators. -/
def relString (f : FileCtx) : String := String.intercalate "/" (f.relParts ++ [f.name])

/-- The file-like children of a directory, in listing order.  `os.walk` puts
regular files and symlinks-to-files in the `files` component of a triple. -/
def fileEntriesOf (parts : List String) (children : List Entry) : List FileCtx :=
  children.filterMap fun e =>
    match e with
    | .file n sz c => some ⟨parts, n, sz, c⟩
    | .linkFile n sz c => some ⟨parts, n, sz, c⟩
    | _ => none

/-- One `(root, dirs, files)` triple yielded by `os.walk`, restricted to what
the loops consume: the visited directory's components relative to the
repository root, its name, and its file-like children. -/
structure Visit where
  relParts : List String
  dirName : String
  files : List FileCtx
deriving DecidableEq, Repr

mutual
/-- Visits contributed by a single child entry of a walked directory.  Only a
real (non-symlink) directory whose name survives the `dirs[:]` ignore filter
is descended into: `os.walk` runs with `followlinks=False`. -/
def visitsOne (ign : List String) (parts : List String) : Entry → List Visit
  | .dir n cs =>
      if n ∈ ign then []
      else ⟨parts ++ [n], n, fileEntriesOf (parts ++ [n]) cs⟩ :: visitsList ign (parts ++ [n]) cs
  | _ => []

/-- Visits contributed by a list of children, in listing order (depth-first,
top-down, exactly as `os.walk` recurses). -/
def visitsList (ign : List String) (parts : List String) : List Entry → List Visit
  | [] => []
  | e :: rest => visitsOne ign parts e ++ visitsList ign parts rest
end

/-- All `os.walk(repo_path)` visits for a repository root, in order.  The root
directory itself is always yielded first (the `dirs[:]` filter only prunes
subdirectories). -/
def visits (ign : List String) : Entry → List Visit
  | .dir n cs => ⟨[], n, fileEntriesOf [] cs⟩ :: visitsList ign [] cs
  | _ => []

/-- The files encountered by the per-file loops, in walk order: for each
visited directory in walk order, its files in listing order. -/
def walkFiles (ign : List String) (t : Entry) : List FileCtx :=
  (visits ign t).flatMap Visit.files

/-- The file-like children of the repository root, in listing order; models
`[p for p in Path(repo_path).iterdir() if p.is_file()]` (`is_file` follows
symlinks, so symlinked files are included and directories excluded). -/
def rootFiles : Entry → List FileCtx
  | .dir _ cs => fileEntriesOf [] cs
  | _ => []

mutual
/-- Replace the target of every symlinked directory with an empty directory:
the digest must not depend on anything reachable only through a symlinked
directory if symlinked directories are never followed. -/
def scrubLinkDirs : Entry → Entry
  | .dir n cs => .dir n (scrubList cs)
  | .linkDir n _ => .linkDir n []
  | .file n sz c => .file n sz c
  | .linkFile n sz c => .linkFile n sz c

def scrubList : List Entry → List Entry
  | [] => []
  | e :: es => scrubLinkDirs e :: scrubList es
end

mutual
/-- Remove every subdirectory whose name is in `ign`, together with its whole
subtree (the root directory itself is kept: the `dirs[:]` filter only prunes
children). -/
def pruneDirs (ign : List String) : Entry → Entry
  | .dir n cs => .dir n (pruneList ign cs)
  | e => e

def pruneList (ign : List String) : List Entry → List Entry
  | [] => []
  | .dir n cs :: es =>
      if n ∈ ign then pruneList ign es
      else .dir n (pruneList ign cs) :: pruneList ign es
  | e :: es => e :: pruneList ign es
end

namespace App

/-- `src/app/converter.py`: 15 MB per-file ceiling. -/
def MAX_FILE_SIZE : Nat := 15 * 1024 * 1024

/-- Declared in the source but never consulted by `trace_repo`. -/
def MAX_DIRECTORY_DEPTH : Nat := 40

/-- Maximum number of files admitted by `trace_repo`. -/
def MAX_FILES : Nat := 15000

/-- Aggregate size ceiling enforced by `trace_repo`. -/
def MAX_TOTAL_SIZE_BYTES : Nat := 1000 * 1024 * 1024

def IGNORED_DIRS : List String := [".git", "__pycache__"]

def IGNORED_FILES : List String :=
  [".DS_Store", "Zone.Identifier", ".jpeg", ".jpg", ".png", ".gif", ".bmp",
   ".tiff", ".tif", ".webp", ".heif", ".heic", ".avif", ".svg", ".psd", ".raw",
   ".eps", ".pdf", ".ico", ".exr", ".tga", ".dds", ".wdp", ".dng", ".ppm"]

def TEXT_EXTS : List String :=
  [".adoc", ".asciidoc", ".ada", ".adb", ".ads", ".asp", ".aspx", ".asm",
   ".astro", ".bash", ".bat", ".bib", ".build", ".c", ".cbl", ".cfg", ".clj",
   ".cls", ".cob", ".conf", ".cpp", ".cql", ".cr", ".cs", ".cshtml", ".csproj",
   ".css", ".csv", ".cypher", ".d", ".dart", ".dockerfile", ".ejs", ".elm",
   ".env", ".erb", ".erl", ".ex", ".exs", ".f", ".f90", ".f95", ".fs", ".fsi",
   ".fsproj", ".gitattributes", ".gitignore", ".go", ".gradle", ".graphql",
   ".groovy", ".h", ".handlebars", ".hbs", ".hcl", ".hpp", ".hrl", ".hs",
   ".htm", ".html", ".idr", ".ini", ".java", ".jinja", ".js", ".json", ".jsp",
   ".jsx", ".kt", ".less", ".lhs", ".lidr", ".liquid", ".lua", ".m",
   ".markdown", ".md", ".ml", ".mli", ".mustache", ".nim", ".p", ".pas",
   ".php", ".pl", ".plist", ".plsql", ".pom", ".pp", ".properties", ".ps1",
   ".psm1", ".psql", ".pug", ".py", ".r", ".rb", ".re", ".rei", ".Rmd", ".rs",
   ".rst", ".S", ".sass", ".sbt", ".scala", ".scss", ".sh", ".slim", ".sln",
   ".sol", ".sql", ".strings", ".sty", ".svelte", ".svg", ".swift", ".tcl",
   ".tex", ".tf", ".tfvars", ".toml", ".ts", ".tsv", ".tsql", ".tsx", ".txt",
   ".v", ".vbhtml", ".vbcsproj", ".vcxproj", ".vhd", ".vhdl", ".vim", ".vimrc",
   ".vue", ".xaml", ".xcodeproj", ".xcworkspace", ".xml", ".xul", ".yaml",
   ".yml", ".zig", ".zsh"]

/-- `is_text_file`: the path's suffix, lowercased, must be in the allow-list. -/
def is_text_file (name : String) : Bool :=
  decide (lowerStr (pathSuffix name) ∈ TEXT_EXTS)

/-- The `trace_repo` per-file ignore test:
`path.suffix.lower() in IGNORED_FILES or path.name in IGNORED_FILES`. -/
def isIgnoredFile (f : FileCtx) : Bool :=
  decide (lowerStr (pathSuffix f.name) ∈ IGNORED_FILES) || decide (f.name ∈ IGNORED_FILES)

/-- A file the classification lets through: not ignored, in the text
allow-list, and within the per-file size ceiling.  (In this snapshot model
every listed file exists, so the `path.is_file()` check always passes.) -/
def eligible (f : FileCtx) : Bool :=
  !isIgnoredFile f && is_text_file f.name && decide (f.size ≤ MAX_FILE_SIZE)

/-- The state threaded through `trace_repo`: the `stats` dictionary, the files
passed to `file_callback` so far (in order), and whether the global
budget `return` has fired. -/
structure TraceState where
  total_files : Nat
  total_size : Nat
  processed : List FileCtx
  stopped : Bool
deriving DecidableEq, Repr

def initTrace : TraceState := ⟨0, 0, [], false⟩

/-- One iteration of the `trace_repo` file loop.  After the budget `return`
has fired nothing further happens (the Python `return` leaves the whole walk).
A file over the per-file ceiling is skipped locally; a file that would push
the counters past `MAX_FILES` or `MAX_TOTAL_SIZE_BYTES` stops the traversal
globally, before being admitted. -/
def traceStep (s : TraceState) (f : FileCtx) : TraceState :=
  if s.stopped then s
  else if isIgnoredFile f then s
  else if !is_text_file f.name then s
  else if MAX_FILE_SIZE < f.size then s
  else if MAX_FILES ≤ s.total_files ∨ MAX_TOTAL_SIZE_BYTES < s.total_size + f.size then
    { s with stopped := true }
  else
    { s with total_files := s.total_files + 1, total_size := s.total_size + f.size,
             processed := s.processed ++ [f] }

/-- `trace_repo(repo_path, file_callback)`: fold the file loop over the
ignore-filtered walk. -/
def trace_repo (t : Entry) : TraceState :=
  (walkFiles IGNORED_DIRS t).foldl traceStep initTrace

/-- The paths handed to `file_callback`, relative to the root. -/
def tracePaths (t : Entry) : List String :=
  (trace_repo t).processed.map relString

/-- The `common_files` list of `generate_markdown_digest`, in source order. -/
def common_files : List String :=
  ["README.md", "CONTRIBUTING.md", "CODE_OF_CONDUCT.md", "SECURITY.md",
   "LICENSE", "LICENSE.md", "LICENSE.txt"]

/-- Lookup in the `repo_files` dictionary `{p.name.lower(): p for p in
Path(repo_path).iterdir() if p.is_file()}`: keys are lowercased names, a later
file with the same key overwrites an earlier one, so the value found for a key
is the last root file whose lowercased name equals it. -/
def repoLookup (fs : List FileCtx) (key : String) : Option FileCtx :=
  (fs.filter fun f => lowerStr f.name == key).getLast?

/-- Accumulated observable output of one `generate_markdown_digest` run:
`digest_lines` (`parts`), the `(message, percentage)` pairs handed to
`progress_callback` (`calls`), and as observations of the appended section
headers, the promoted common files and the files given a content section by
`process_file`, each in order of appearance. -/
structure GenResult where
  parts : List String
  calls : List (String × Nat)
  commonFiles : List FileCtx
  loopFiles : List FileCtx
deriving DecidableEq, Repr

/-- The two `digest_lines` entries of one promoted common file: the `##`
header (its relative path is its bare name, the file sits at the root) and the
file's content. -/
def commonSecParts (f : FileCtx) : List String :=
  ["\n## " ++ f.name ++ "\n", f.content]

/-- The body of the common-files promotion loop, folded over a name list. -/
def commonFold (root : List FileCtx) (r : GenResult) : List String → GenResult
  | [] => r
  | n :: ns =>
      match repoLookup root (lowerStr n) with
      | some f =>
          commonFold root
            { r with
              parts := r.parts ++ commonSecParts f,
              calls := r.calls ++ [("Processed " ++ f.name, 5)],
              commonFiles := r.commonFiles ++ [f] }
            ns
      | none => commonFold root r ns

/-- The common-files promotion loop: for each name of `common_files` in order,
look it up case-insensitively among the root's files; on a hit, append a
`## rel_path` header and the file's content to `digest_lines` and report
progress at 5 percent. -/
def commonPhase (root : List FileCtx) (r : GenResult) : GenResult :=
  commonFold root r common_files

/-- The pre-count loop predicate: not ignored, in the text allow-list, and not
named (case-sensitively) like a common file.  Note it applies no size or
budget ceiling. -/
def precountP (f : FileCtx) : Bool :=
  !isIgnoredFile f && is_text_file f.name && decide (f.name ∉ common_files)

/-- `total_files` as computed by the pre-count walk of
`generate_markdown_digest`. -/
def precount (t : Entry) : Nat :=
  ((walkFiles IGNORED_DIRS t).filter precountP).length

/-- The state of the `trace_repo(repo_path, file_callback=process_file)` run:
the trace budget plus `process_file`'s closed-over `file_count`,
`digest_lines` and progress calls. -/
structure GenState where
  total_files : Nat
  total_size : Nat
  stopped : Bool
  file_count : Nat
  res : GenResult
deriving DecidableEq, Repr

/-- The two `digest_lines` entries appended by `process_file` for one file:
the `##` header with the root-relative path, and the file's content (chunked
reads concatenate to the same digest string). -/
def loopSecParts (f : FileCtx) : List String :=
  ["\n## " ++ relString f ++ "\n", f.content]

/-- One file of the digesting loop: the `trace_repo` filters and budget run
first; an admitted file is then handed to `process_file`, which skips files
named (case-sensitively) like a common file, appends the `## rel_path` header
and the file's content (chunked reads concatenate to the same digest string),
and reports `int((file_count / total_files) * 90) + 10` percent.  The Python
float computation of that percentage may differ from Nat division by one unit
on intermediate values, but is monotone in `file_count` and exact at
`file_count = total_files`; no claim below depends on the intermediate
values. -/
def genStep (T : Nat) (s : GenState) (f : FileCtx) : GenState :=
  if s.stopped then s
  else if isIgnoredFile f then s
  else if !is_text_file f.name then s
  else if MAX_FILE_SIZE < f.size then s
  else if MAX_FILES ≤ s.total_files ∨ MAX_TOTAL_SIZE_BYTES < s.total_size + f.size then
    { s with stopped := true }
  else
    let s' := { s with total_files := s.total_files + 1, total_size := s.total_size + f.size }
    if f.name ∈ common_files then s'
    else
      let fc := s'.file_count + 1
      { s' with
        file_count := fc,
        res := { s'.res with
                 parts := s'.res.parts ++ loopSecParts f,
                 loopFiles := s'.res.loopFiles ++ [f],
                 calls := if 0 < T then
                     s'.res.calls ++
                       [("Currently processing " ++ f.name ++ "...", 10 + fc * 90 / T)]
                   else s'.res.calls } }

/-- `generate_markdown_digest(repo_url, repo_path, progress_callback)`:
header line, common-files promotion, pre-count, then the traced digesting
loop. -/
def generate_markdown_digest (repo_url : String) (t : Entry) : GenResult :=
  let r0 : GenResult := ⟨["# Repository Digest for " ++ repo_url ++ "\n"], [], [], []⟩
  let r1 := commonPhase (rootFiles t) r0
  let T := precount t
  ((walkFiles IGNORED_DIRS t).foldl (genStep T) ⟨0, 0, false, 0, r1⟩).res

/-- The returned digest string: `"".join(digest_lines)`. -/
def digestString (repo_url : String) (t : Entry) : String :=
  String.join (generate_markdown_digest repo_url t).parts

/-- The root-relative paths of all content sections of the digest, promoted
common files first (a promoted file sits at the root, so its relative path is
its name), then the `process_file` sections, each in order of appearance. -/
def digestSectionPaths (repo_url : String) (t : Entry) : List String :=
  ((generate_markdown_digest repo_url t).commonFiles.map FileCtx.name) ++
    ((generate_markdown_digest repo_url t).loopFiles.map relString)

/-- The percentages passed to the progress callback, in order. -/
def digestPercentages (repo_url : String) (t : Entry) : List Nat :=
  ((generate_markdown_digest repo_url t).calls).map Prod.snd

end App

namespace Legacy

/-- `src/converter.py`: 100 KB per-file ceiling. -/
def MAX_FILE_SIZE : Nat := 100 * 1024

def IGNORED_DIRS : List String := [".git", "__pycache__"]

def IGNORED_FILES : List String :=
  [".DS_Store", "Zone.Identifier", ".jpeg", ".jpg", ".png", ".gif", ".bmp",
   ".tiff", ".tif", ".webp", ".heif", ".heic", ".avif", ".svg", ".psd", ".raw",
   ".eps", ".pdf", ".ico", ".exr", ".tga", ".dds", ".wdp", ".dng", ".ppm"]

def TEXT_EXTS : List String :=
  [".py", ".js", ".ts", ".java", ".go", ".rs", ".c", ".cpp", ".h", ".hpp",
   ".cs", ".fs", ".fsi", ".swift", ".kt", ".kts", ".rb", ".php", ".pl", ".pm",
   ".lua", ".scala", ".groovy", ".dart", ".r", ".sh", ".bash", ".zsh", ".fish",
   ".bat", ".cmd", ".ps1", ".psm1", ".psd1", ".tcl", ".m", ".elm", ".ex",
   ".exs", ".cr", ".nim", ".v", ".sv", ".vhdl", ".gd", ".clj", ".cljs",
   ".cljc", ".html", ".htm", ".css", ".scss", ".sass", ".less", ".vue", ".jsx",
   ".tsx", ".svelte", ".ejs", ".erb", ".hbs", ".handlebars", ".mustache",
   ".jinja", ".j2", ".twig", ".md", ".markdown", ".rst", ".adoc", ".asciidoc",
   ".tex", ".bib", ".org", ".txt", ".json", ".jsonc", ".json5", ".yml",
   ".yaml", ".xml", ".xsd", ".xsl", ".toml", ".ini", ".cfg", ".conf",
   ".config", ".properties", ".env", ".graphql", ".gql", ".hcl", ".tf",
   ".tfvars", ".csv", ".tsv", ".log", ".Makefile", ".mk", ".cmake", ".gradle",
   ".gradle.kts", ".pom", ".csproj", ".vbproj", ".fsproj", ".sln", ".xcconfig",
   ".gitignore", ".gitattributes", ".gitmodules", ".editorconfig",
   ".prettierrc", ".eslintrc", ".babelrc", ".stylelintrc", ".dockerfile",
   ".vagrantfile", ".sql", ".ddl", ".patch", ".diff", ".sub", ".srt", ".vtt",
   ".desktop", ".service", ".list", ".theme", ".plantuml", ".puml", ".iuml",
   ".dot", ".gv", ".http", ".rest", ".proto", ".asc", ".pem"]

/-- Legacy `is_text_file`. -/
def is_text_file (name : String) : Bool :=
  decide (lowerStr (pathSuffix name) ∈ TEXT_EXTS)

/-- Insertion of one string into a sorted list, preferring existing elements on
ties; `insertionSort` models Python's stable `sorted()` on strings. -/
def insertSorted (a : String) : List String → List String
  | [] => [a]
  | b :: bs => if a < b then a :: b :: bs else b :: insertSorted a bs

def insertionSort : List String → List String
  | [] => []
  | a :: as' => insertSorted a (insertionSort as')

/-- The indentation used by the legacy tree: four spaces per level. -/
def indentOf (k : Nat) : String := ⟨List.replicate (4 * k) ' '⟩

/-- `os.path.relpath(root, repo_path).count(os.sep)`: the relative path of the
repository root itself is `"."` (no separator), a directory `d` levels below
the root has `d - 1` separators. -/
def levelOf (relParts : List String) : Nat := relParts.length - 1

/-- The legacy `print_tree`: walks with ignored directories pruned, emits one
`name/` line per visited directory indented by its level, then its file names,
sorted, each indented one level further, skipping only file names that are
literally in `IGNORED_FILES` (an extension entry such as `".png"` never equals
a file name, so extension-ignored files are not skipped here). -/
def print_tree (t : Entry) : List String :=
  (visits IGNORED_DIRS t).flatMap fun v =>
    (indentOf (levelOf v.relParts) ++ v.dirName ++ "/") ::
      ((insertionSort (v.files.map FileCtx.name)).filter
          (fun n => decide (n ∉ IGNORED_FILES))).map
        (fun n => indentOf (levelOf v.relParts) ++ "    " ++ n)

/-- The file-gathering loop of the legacy `generate_markdown_digest` (and of
the legacy `trace_repo`): skip names literally in `IGNORED_FILES`, files over
the 100 KB ceiling, and non-text files; no global count or size budget. -/
def contentFiles (t : Entry) : List FileCtx :=
  (walkFiles IGNORED_DIRS t).filter fun f =>
    decide (f.name ∉ IGNORED_FILES) && decide (f.size ≤ MAX_FILE_SIZE) &&
      is_text_file f.name

/-- `Path(rel_path).suffix.lstrip(".")`: the suffix without its leading dot,
used as the fenced-code-block language tag. -/
def extTag (f : FileCtx) : String :=
  ⟨(pathSuffix (relString f)).data.dropWhile (· = '.')⟩

/-- The legacy digest run: `md_parts` and the `(message, percentage)` calls,
built sequentially exactly as `generate_markdown_digest` does. -/
structure GenResult where
  parts : List String
  calls : List (String × Nat)
deriving DecidableEq, Repr

def generate_markdown_digest (repo_url : String) (t : Entry) : GenResult :=
  let files := contentFiles t
  let total := files.length
  let headerParts :=
    ["# Codebase Digest for " ++ repo_url ++ "\n", "## Directory Tree\n", "```"] ++
      print_tree t ++ ["```\n", "## Files and Content\n"]
  let headerCalls :=
    [("Starting Markdown digest generation.", 0),
     ("Generating directory tree...", 10),
     ("Directory tree generated.", 20),
     ("Digesting files for content...", 30)]
  let fileSteps : GenResult :=
    if total = 0 then ⟨[], [("No files to process.", 90)]⟩
    else
      (List.range total).foldl
        (fun acc idx =>
          match files[idx]? with
          | some f =>
              ⟨acc.parts ++
                  ["### " ++ relString f ++ "\n",
                   "```" ++ extTag f ++ "\n" ++ f.content ++ "\n```\n"],
                acc.calls ++
                  [("Digesting " ++ toString (idx + 1) ++ "/" ++ toString total ++
                      " files...", 30 + (idx + 1) * 60 / total)]⟩
          | none => acc)
        ⟨[], []⟩
  { parts := headerParts ++ fileSteps.parts,
    calls := headerCalls ++ fileSteps.calls ++
      [("File content processing complete.", 95),
       ("Markdown digest generation complete.", 100)] }

/-- The returned digest string: `"\n".join(md_parts)`. -/
def digestString (repo_url : String) (t : Entry) : String :=
  String.intercalate "\n" (generate_markdown_digest repo_url t).parts

end Legacy

/-! Concrete repository snapshots used to settle individual claims. -/

/-- Two eligible root files whose directory listing is not in lexicographic
order. -/
def exC1 : Entry := .dir "repo" [.file "b.py" 1 "B", .file "a.py" 1 "A"]

/-- A root file, a subdirectory file and an ignored directory. -/
def exC1w : Entry :=
  .dir "repo" [.file "n.py" 1 "N", .dir "src" [.file "m.md" 2 "M"],
               .dir ".git" [.file "h.py" 1 "H"]]

/-- A README plus a file over the 15 MB per-file ceiling. -/
def exC3 : Entry :=
  .dir "r" [.file "README.md" 1 "x", .file "big.py" (15 * 1024 * 1024 + 1) "y"]

/-- A README plus two small eligible files. -/
def exC3w : Entry :=
  .dir "r" [.file "a.py" 1 "A", .file "b.py" 1 "B", .file "README.md" 2 "R"]

/-- A priority document present at the root in non-canonical letter case. -/
def exC4 : Entry := .dir "r" [.file "readme.md" 4 "DOCS"]

/-- A priority document with its exact canonical name, plus one code file. -/
def exC4w : Entry := .dir "r" [.file "README.md" 2 "R", .file "a.py" 1 "A"]

/-- A single eligible-by-classification file over the per-file ceiling. -/
def exC5 : Entry := .dir "r" [.file "big.py" (15 * 1024 * 1024 + 1) "SECRET"]

/-- One small code file. -/
def exC5w : Entry := .dir "r" [.file "a.py" 1 "A"]

/-- A file with an ignored image extension. -/
def exC6 : Entry := .dir "r" [.file "x.png" 3 "AAA"]

/-- An eligible code file next to an ignored-extension file. -/
def exC6w : Entry := .dir "r" [.file "a.py" 1 "A", .file "x.svg" 2 "S"]

/-- A symlink to a regular file, with a text extension. -/
def exC7 : Entry := .dir "r" [.linkFile "s.py" 6 "SECRET"]

/-- Two small eligible files. -/
def exC8w : Entry := .dir "r" [.file "a.py" 1 "A", .file "b.py" 2 "B"]

/-- An ignored-extension file plus an ignored directory with a secret file. -/
def exC9 : Entry :=
  .dir "r" [.file "x.png" 3 "A", .dir ".git" [.file "secret.txt" 1 "S"]]

/-- A file whose extension is a letter-case variant of an allow-list entry. -/
def exC10w : FileCtx := ⟨[], "x.RMD", 1, "R"⟩

/-- A small repository with one eligible code file. -/
def exC10t : Entry := .dir "r" [.file "k.py" 1 "K"]

/-- Lexicographic order on paths by character code: the order Python's string
comparison and `sorted` induce on ASCII paths. -/
def pathLe (a b : String) : Prop := a.data < b.data ∨ a = b

instance : DecidableRel pathLe := fun _ _ =>
  inferInstanceAs (Decidable (_ ∨ _))

/-! Helper lemmas about the string model. -/

theorem charLower_dot (c : Char) : charLower c = '.' ↔ c = '.' := by
  unfold charLower
  split <;> first | decide | rfl

theorem lastDotPos_map (l : List Char) :
    lastDotPos (l.map charLower) = lastDotPos l := by
  induction l with
  | nil => rfl
  | cons c cs ih =>
    simp only [List.map_cons, lastDotPos, ih]
    cases h : lastDotPos cs with
    | some j => rfl
    | none =>
      by_cases hc : c = '.'
      · rw [if_pos ((charLower_dot c).mpr hc), if_pos hc]
      · rw [if_neg (fun h2 => hc ((charLower_dot c).mp h2)), if_neg hc]

/-- Lowercasing commutes with taking the path suffix: the dot positions are
unchanged by `str.lower`. -/
theorem pathSuffix_lowerStr (s : String) :
    pathSuffix (lowerStr s) = lowerStr (pathSuffix s) := by
  unfold pathSuffix
  have hd : (lowerStr s).data = s.data.map charLower := rfl
  rw [hd, lastDotPos_map]
  cases h : lastDotPos s.data with
  | none => rfl
  | some i =>
    simp only [List.length_map]
    by_cases hcond : 0 < i ∧ i < s.data.length - 1
    · rw [if_pos hcond, if_pos hcond]
      show (⟨(s.data.map charLower).drop i⟩ : String) = ⟨(s.data.drop i).map charLower⟩
      rw [List.map_drop]
    · rw [if_neg hcond, if_neg hcond]
      rfl

theorem mem_of_getLastOpt {α : Type} {l : List α} {a : α}
    (h : l.getLast? = some a) : a ∈ l := by
  induction l with
  | nil => simp at h
  | cons b bs ih =>
    cases bs with
    | nil => simp_all [List.getLast?]
    | cons c cs =>
      rw [List.getLast?_cons_cons] at h
      exact List.mem_cons_of_mem _ (ih h)

/-- A successful `repo_files` lookup returns a root file whose lowercased name
is the requested key. -/
theorem repoLookup_mem {fs : List FileCtx} {key : String} {f : FileCtx}
    (h : App.repoLookup fs key = some f) : f ∈ fs ∧ lowerStr f.name = key := by
  unfold App.repoLookup at h
  have hm := List.mem_filter.mp (mem_of_getLastOpt h)
  exact ⟨hm.1, by simpa using hm.2⟩

/-! Helper lemmas about the `trace_repo` fold. -/

theorem traceStep_stopped {s : App.TraceState} (f : FileCtx)
    (h : s.stopped = true) : App.traceStep s f = s := by
  simp [App.traceStep, h]

/-- Each `trace_repo` iteration either leaves the state unchanged, fires the
global budget stop, or admits an eligible file within the remaining budget. -/
theorem traceStep_shape (s : App.TraceState) (f : FileCtx) :
    App.traceStep s f = s ∨
    App.traceStep s f = { s with stopped := true } ∨
    (App.eligible f = true ∧ ¬App.MAX_FILES ≤ s.total_files ∧
      ¬App.MAX_TOTAL_SIZE_BYTES < s.total_size + f.size ∧
      App.traceStep s f =
        { s with total_files := s.total_files + 1,
                 total_size := s.total_size + f.size,
                 processed := s.processed ++ [f] }) := by
  by_cases h0 : s.stopped = true
  · left; simp [App.traceStep, h0]
  by_cases h1 : App.isIgnoredFile f = true
  · left; simp [App.traceStep, h0, h1]
  by_cases h2 : App.is_text_file f.name = true
  case neg => left; simp [App.traceStep, h0, h1, h2]
  by_cases h3 : App.MAX_FILE_SIZE < f.size
  · left; simp [App.traceStep, h0, h1, h2, h3]
  by_cases h4 : App.MAX_FILES ≤ s.total_files ∨ App.MAX_TOTAL_SIZE_BYTES < s.total_size + f.size
  · right; left; simp [App.traceStep, h0, h1, h2, h3, h4]
  · right; right
    push_neg at h4
    obtain ⟨h4a, h4b⟩ := h4
    have hcond : ¬(App.MAX_FILES ≤ s.total_files ∨
        App.MAX_TOTAL_SIZE_BYTES < s.total_size + f.size) := by omega
    refine ⟨?_, by omega, by omega, ?_⟩
    · simp [App.eligible, h1, h2, Nat.not_lt.mp h3]
    · simp [App.traceStep, h0, h1, h2, h3, hcond]

/-- An eligible file passes each of the three classification tests. -/
theorem eligible_parts {f : FileCtx} (hel : App.eligible f = true) :
    App.isIgnoredFile f = false ∧ App.is_text_file f.name = true ∧
      ¬App.MAX_FILE_SIZE < f.size := by
  revert hel
  unfold App.eligible
  by_cases h : f.size ≤ App.MAX_FILE_SIZE <;>
    cases App.isIgnoredFile f <;> cases App.is_text_file f.name <;>
      simp_all [Nat.not_lt, Nat.not_le]

/-- A non-eligible, non-stopped state is skipped without any state change. -/
theorem traceStep_skip {s : App.TraceState} {f : FileCtx} (hs : s.stopped = false)
    (hne : App.eligible f = false) : App.traceStep s f = s := by
  revert hne
  unfold App.eligible App.traceStep
  by_cases h : f.size ≤ App.MAX_FILE_SIZE <;>
    cases hi : App.isIgnoredFile f <;> cases ht : App.is_text_file f.name <;>
      simp_all [Nat.not_lt, Nat.not_le]

/-- Under sufficient remaining budget, the `trace_repo` fold admits exactly
the classification-eligible files, in order. -/
theorem traceFold_all (l : List FileCtx) :
    ∀ (tf ts : Nat) (pr : List FileCtx),
      tf + (l.filter App.eligible).length ≤ App.MAX_FILES →
      ts + ((l.filter App.eligible).map FileCtx.size).sum ≤
        App.MAX_TOTAL_SIZE_BYTES →
      (l.foldl App.traceStep ⟨tf, ts, pr, false⟩).processed =
        pr ++ l.filter App.eligible := by
  induction l with
  | nil => intro tf ts pr _ _; simp
  | cons f fs ih =>
    intro tf ts pr hcount hsize
    rw [List.foldl_cons]
    by_cases hel : App.eligible f = true
    · rw [List.filter_cons_of_pos hel] at hcount hsize ⊢
      simp only [List.length_cons, List.map_cons, List.sum_cons] at hcount hsize
      obtain ⟨h1, h2, h3⟩ := eligible_parts hel
      have hc : ¬(App.MAX_FILES ≤ tf ∨
          App.MAX_TOTAL_SIZE_BYTES < ts + f.size) := by omega
      have hstep : App.traceStep ⟨tf, ts, pr, false⟩ f =
          ⟨tf + 1, ts + f.size, pr ++ [f], false⟩ := by
        simp [App.traceStep, h1, h2, h3, hc]
      rw [hstep, ih (tf + 1) (ts + f.size) (pr ++ [f]) (by omega) (by omega)]
      simp
    · have hne : App.eligible f = false := by simpa using hel
      rw [List.filter_cons_of_neg (by simp [hne])] at hcount hsize ⊢
      rw [traceStep_skip rfl hne]
      exact ih tf ts pr hcount hsize

/-- The `trace_repo` counters never pass their ceilings. -/
theorem traceFold_bound (l : List FileCtx) :
    ∀ s : App.TraceState, s.total_files ≤ App.MAX_FILES →
      s.total_size ≤ App.MAX_TOTAL_SIZE_BYTES →
      (l.foldl App.traceStep s).total_files ≤ App.MAX_FILES ∧
        (l.foldl App.traceStep s).total_size ≤ App.MAX_TOTAL_SIZE_BYTES := by
  induction l with
  | nil => intro s h1 h2; exact ⟨h1, h2⟩
  | cons f fs ih =>
    intro s h1 h2
    rw [List.foldl_cons]
    rcases traceStep_shape s f with h | h | ⟨_, hc1, hc2, h⟩
    · rw [h]; exact ih s h1 h2
    · rw [h]; exact ih _ h1 h2
    · rw [h]
      exact ih _ (by simpa using Nat.not_le.mp hc1) (by simpa using Nat.not_lt.mp hc2)

/-! Helper lemmas about the digesting fold of `generate_markdown_digest`. -/

/-- Each digesting iteration either leaves `process_file`'s observable output
unchanged, or appends exactly one section for an eligible file not named like
a common file, together with its progress call. -/
theorem genStep_shape (T : Nat) (s : App.GenState) (f : FileCtx) :
    ((App.genStep T s f).res = s.res ∧
      (App.genStep T s f).file_count = s.file_count) ∨
    (App.eligible f = true ∧ f.name ∉ App.common_files ∧ App.precountP f = true ∧
      (App.genStep T s f).file_count = s.file_count + 1 ∧
      (App.genStep T s f).res.loopFiles = s.res.loopFiles ++ [f] ∧
      (App.genStep T s f).res.parts = s.res.parts ++ App.loopSecParts f ∧
      (App.genStep T s f).res.commonFiles = s.res.commonFiles ∧
      (App.genStep T s f).res.calls =
        (if 0 < T then
          s.res.calls ++ [("Currently processing " ++ f.name ++ "...",
            10 + (s.file_count + 1) * 90 / T)]
         else s.res.calls)) := by
  by_cases h0 : s.stopped = true
  · left; simp [App.genStep, h0]
  by_cases h1 : App.isIgnoredFile f = true
  · left; simp [App.genStep, h0, h1]
  by_cases h2 : App.is_text_file f.name = true
  case neg => left; simp [App.genStep, h0, h1, h2]
  by_cases h3 : App.MAX_FILE_SIZE < f.size
  · left; simp [App.genStep, h0, h1, h2, h3]
  by_cases h4 : App.MAX_FILES ≤ s.total_files ∨
      App.MAX_TOTAL_SIZE_BYTES < s.total_size + f.size
  · left; simp [App.genStep, h0, h1, h2, h3, h4]
  by_cases h5 : f.name ∈ App.common_files
  · left; simp [App.genStep, h0, h1, h2, h3, h4, h5]
  · right
    refine ⟨?_, h5, ?_, ?_⟩
    · simp [App.eligible, h1, h2, Nat.not_lt.mp h3]
    · simp [App.precountP, h1, h2, h5]
    · simp [App.genStep, h0, h1, h2, h3, h4, h5]

/-- The digesting fold appends one section per admitted non-common file, in
order, and nothing else: skipped files leave no part behind. -/
theorem genLoop_delta (T : Nat) (l : List FileCtx) :
    ∀ s : App.GenState, ∃ new : List FileCtx,
      (l.foldl (App.genStep T) s).res.loopFiles = s.res.loopFiles ++ new ∧
      (l.foldl (App.genStep T) s).res.parts =
        s.res.parts ++ new.flatMap App.loopSecParts ∧
      (l.foldl (App.genStep T) s).res.commonFiles = s.res.commonFiles ∧
      ∀ f ∈ new, App.eligible f = true ∧ f.name ∉ App.common_files := by
  induction l with
  | nil => intro s; exact ⟨[], by simp, by simp, rfl, by simp⟩
  | cons f fs ih =>
    intro s
    rw [List.foldl_cons]
    obtain ⟨new, n1, n2, n3, n4⟩ := ih (App.genStep T s f)
    rcases genStep_shape T s f with ⟨hres, _⟩ | ⟨he, hnc, _, _, hlf, hp, hcf, _⟩
    · exact ⟨new, by rw [n1, hres], by rw [n2, hres], by rw [n3, hres], n4⟩
    · refine ⟨f :: new, ?_, ?_, ?_, ?_⟩
      · rw [n1, hlf]; simp
      · rw [n2, hp]; simp
      · rw [n3, hcf]
      · intro g hg
        rcases List.mem_cons.mp hg with rfl | hg
        · exact ⟨he, hnc⟩
        · exact n4 g hg

theorem hiBound_mono (T : Nat) {a b : Nat} (h : a ≤ b) :
    10 + a * 90 / T ≤ 10 + b * 90 / T :=
  Nat.add_le_add_left (Nat.div_le_div_right (Nat.mul_le_mul_right 90 h)) 10

theorem hi_le_100 (T : Nat) {fc : Nat} (h : fc ≤ T) : 10 + fc * 90 / T ≤ 100 := by
  rcases Nat.eq_zero_or_pos T with rfl | hT
  · simp
  · have h2 : fc * 90 / T ≤ T * 90 / T :=
      Nat.div_le_div_right (Nat.mul_le_mul_right 90 h)
    rw [Nat.mul_div_cancel_left 90 hT] at h2
    omega

theorem chainLe_map_const {α : Type} (l : List α) (c : Nat) :
    List.Chain' (· ≤ ·) (l.map fun _ => c) := by
  induction l with
  | nil => simp
  | cons a as ih => cases as <;> simp_all

/-- Progress percentages reported by the digesting fold form a non-decreasing
sequence, each bounded by `10 + file_count * 90 / total_files`, and
`file_count` never exceeds the pre-count. -/
theorem genLoop_calls (T : Nat) (l : List FileCtx) :
    ∀ s : App.GenState,
      List.Chain' (· ≤ ·) (s.res.calls.map Prod.snd) →
      (∀ p ∈ s.res.calls.map Prod.snd, p ≤ 10 + s.file_count * 90 / T) →
      s.file_count + (l.filter App.precountP).length ≤ T →
      List.Chain' (· ≤ ·) (((l.foldl (App.genStep T) s).res.calls).map Prod.snd) ∧
      (∀ p ∈ ((l.foldl (App.genStep T) s).res.calls).map Prod.snd,
        p ≤ 10 + (l.foldl (App.genStep T) s).file_count * 90 / T) ∧
      (l.foldl (App.genStep T) s).file_count ≤ T := by
  induction l with
  | nil =>
    intro s h1 h2 h3
    exact ⟨h1, h2, by simpa using h3⟩
  | cons f fs ih =>
    intro s h1 h2 h3
    rw [List.foldl_cons]
    rcases genStep_shape T s f with ⟨hres, hfc⟩ | ⟨_, _, hpc, hfc, _, _, _, hcalls⟩
    · apply ih
      · rw [hres]; exact h1
      · rw [hres, hfc]; exact h2
      · rw [hfc]
        have hlen : (fs.filter App.precountP).length ≤
            ((f :: fs).filter App.precountP).length := by
          by_cases hp : App.precountP f = true
          · rw [List.filter_cons_of_pos hp]; simp
          · rw [List.filter_cons_of_neg (by simpa using hp)]
        omega
    · rw [List.filter_cons_of_pos hpc, List.length_cons] at h3
      apply ih
      · rw [hcalls]
        by_cases hT : 0 < T
        · rw [if_pos hT, List.map_append]
          refine List.Chain'.append h1 (by simp) ?_
          intro x hx y hy
          simp only [List.map_cons, List.map_nil, List.head?_cons,
            Option.mem_def, Option.some.injEq] at hy
          subst hy
          exact le_trans (h2 x (mem_of_getLastOpt hx)) (hiBound_mono T (by omega))
        · rw [if_neg hT]; exact h1
      · rw [hcalls, hfc]
        by_cases hT : 0 < T
        · rw [if_pos hT]
          intro p hp
          rw [List.map_append] at hp
          rcases List.mem_append.mp hp with hp | hp
          · exact le_trans (h2 p hp) (hiBound_mono T (by omega))
          · simp only [List.map_cons, List.map_nil, List.mem_singleton] at hp
            omega
        · rw [if_neg hT]
          intro p hp
          exact le_trans (h2 p hp) (hiBound_mono T (by omega))
      · rw [hfc]; omega

/-- The common-files promotion fold appends, in promotion order, one section
and one 5-percent progress call per found file; every promoted file is a root
file whose lowercased name equals one of the folded names lowercased, and the
loop-section list is untouched. -/
theorem commonFold_delta (root : List FileCtx) (ns : List String) :
    ∀ r : App.GenResult, ∃ new : List FileCtx,
      (App.commonFold root r ns).commonFiles = r.commonFiles ++ new ∧
      (App.commonFold root r ns).parts =
        r.parts ++ new.flatMap App.commonSecParts ∧
      (App.commonFold root r ns).calls =
        r.calls ++ new.map (fun f => ("Processed " ++ f.name, 5)) ∧
      (App.commonFold root r ns).loopFiles = r.loopFiles ∧
      ∀ f ∈ new, f ∈ root ∧ ∃ n ∈ ns, lowerStr f.name = lowerStr n := by
  induction ns with
  | nil =>
    intro r
    exact ⟨[], by simp [App.commonFold], by simp [App.commonFold],
      by simp [App.commonFold], by simp [App.commonFold], by simp⟩
  | cons n ns ih =>
    intro r
    unfold App.commonFold
    cases h : App.repoLookup root (lowerStr n) with
    | none =>
      obtain ⟨new, h1, h2, h3, h4, h5⟩ := ih r
      refine ⟨new, h1, h2, h3, h4, fun f hf => ⟨(h5 f hf).1, ?_⟩⟩
      obtain ⟨m, hm, he⟩ := (h5 f hf).2
      exact ⟨m, List.mem_cons_of_mem _ hm, he⟩
    | some f0 =>
      obtain ⟨hf0mem, hf0key⟩ := repoLookup_mem h
      obtain ⟨new, h1, h2, h3, h4, h5⟩ := ih
        { r with parts := r.parts ++ App.commonSecParts f0,
                 calls := r.calls ++ [("Processed " ++ f0.name, 5)],
                 commonFiles := r.commonFiles ++ [f0] }
      refine ⟨f0 :: new, ?_, ?_, ?_, ?_, ?_⟩
      · rw [h1]; simp
      · rw [h2]; simp
      · rw [h3]; simp
      · rw [h4]
      · intro f hf
        rcases List.mem_cons.mp hf with rfl | hf
        · exact ⟨hf0mem, n, List.mem_cons_self n ns, hf0key⟩
        · obtain ⟨m, hm, he⟩ := (h5 f hf).2
          exact ⟨(h5 f hf).1, m, List.mem_cons_of_mem _ hm, he⟩

/-! Helper lemmas: the walk never enters symlinked directories, and prunes
ignored directories together with their whole subtrees. -/

theorem fileEntriesOf_scrubList (parts : List String) (cs : List Entry) :
    fileEntriesOf parts (scrubList cs) = fileEntriesOf parts cs := by
  induction cs with
  | nil => rfl
  | cons e es ih =>
    cases e <;> simp_all [scrubList, scrubLinkDirs, fileEntriesOf, List.filterMap_cons]

mutual
theorem visitsOne_scrub (ign parts : List String) (e : Entry) :
    visitsOne ign parts (scrubLinkDirs e) = visitsOne ign parts e := by
  cases e with
  | dir n cs =>
    simp only [scrubLinkDirs, visitsOne]
    by_cases h : n ∈ ign
    · rw [if_pos h, if_pos h]
    · rw [if_neg h, if_neg h, fileEntriesOf_scrubList,
        visitsList_scrub ign (parts ++ [n]) cs]
  | linkDir n cs => rfl
  | file n sz c => rfl
  | linkFile n sz c => rfl

theorem visitsList_scrub (ign parts : List String) (es : List Entry) :
    visitsList ign parts (scrubList es) = visitsList ign parts es := by
  cases es with
  | nil => rfl
  | cons e rest =>
    simp only [scrubList, visitsList]
    rw [visitsOne_scrub ign parts e, visitsList_scrub ign parts rest]
end

theorem visits_scrub (ign : List String) (t : Entry) :
    visits ign (scrubLinkDirs t) = visits ign t := by
  cases t with
  | dir n cs =>
    simp only [scrubLinkDirs, visits]
    rw [fileEntriesOf_scrubList, visitsList_scrub]
  | linkDir n cs => rfl
  | file n sz c => rfl
  | linkFile n sz c => rfl

theorem walkFiles_scrub (ign : List String) (t : Entry) :
    walkFiles ign (scrubLinkDirs t) = walkFiles ign t := by
  unfold walkFiles
  rw [visits_scrub]

theorem rootFiles_scrub (t : Entry) :
    rootFiles (scrubLinkDirs t) = rootFiles t := by
  cases t with
  | dir n cs =>
    simp only [scrubLinkDirs, rootFiles]
    exact fileEntriesOf_scrubList [] cs
  | linkDir n cs => rfl
  | file n sz c => rfl
  | linkFile n sz c => rfl

theorem fileEntriesOf_pruneList (ign parts : List String) (cs : List Entry) :
    fileEntriesOf parts (pruneList ign cs) = fileEntriesOf parts cs := by
  induction cs with
  | nil => simp [pruneList]
  | cons e es ih =>
    cases e with
    | dir n cs' =>
      by_cases h : n ∈ ign <;>
        simp_all [pruneList, fileEntriesOf, List.filterMap_cons]
    | linkDir n cs' => simp_all [pruneList, fileEntriesOf, List.filterMap_cons]
    | file n sz c => simp_all [pruneList, fileEntriesOf, List.filterMap_cons]
    | linkFile n sz c => simp_all [pruneList, fileEntriesOf, List.filterMap_cons]

theorem visitsList_prune (ign parts : List String) (es : List Entry) :
    visitsList ign parts (pruneList ign es) = visitsList ign parts es := by
  cases es with
  | nil => simp [pruneList]
  | cons e rest =>
    cases e with
    | dir n cs =>
      by_cases h : n ∈ ign
      · rw [show pruneList ign (.dir n cs :: rest) = pruneList ign rest by
            simp [pruneList, h]]
        rw [visitsList_prune ign parts rest]
        simp [visitsList, visitsOne, h]
      · rw [show pruneList ign (.dir n cs :: rest) =
            .dir n (pruneList ign cs) :: pruneList ign rest by simp [pruneList, h]]
        simp only [visitsList, visitsOne]
        rw [if_neg h, if_neg h, fileEntriesOf_pruneList,
          visitsList_prune ign (parts ++ [n]) cs, visitsList_prune ign parts rest]
    | linkDir n cs =>
      simp only [pruneList, visitsList]
      rw [visitsList_prune ign parts rest]
    | file n sz c =>
      simp only [pruneList, visitsList]
      rw [visitsList_prune ign parts rest]
    | linkFile n sz c =>
      simp only [pruneList, visitsList]
      rw [visitsList_prune ign parts rest]

theorem visits_prune (ign : List String) (t : Entry) :
    visits ign (pruneDirs ign t) = visits ign t := by
  cases t with
  | dir n cs =>
    simp only [pruneDirs, visits]
    rw [fileEntriesOf_pruneList, visitsList_prune]
  | linkDir n cs => rfl
  | file n sz c => rfl
  | linkFile n sz c => rfl

/-! Helper lemmas assembling the whole `generate_markdown_digest` run. -/

/-- The let-bindings of `generate_markdown_digest`, unfolded. -/
theorem generate_eq (url : String) (t : Entry) :
    App.generate_markdown_digest url t =
      ((walkFiles App.IGNORED_DIRS t).foldl (App.genStep (App.precount t))
        ⟨0, 0, false, 0,
          App.commonPhase (rootFiles t)
            ⟨["# Repository Digest for " ++ url ++ "\n"], [], [], []⟩⟩).res := rfl

/-- Every file sectioned by the digesting loop passed the classification and
the exact-name common-file test. -/
theorem generate_loopFiles_spec (url : String) (t : Entry) :
    ∀ f ∈ (App.generate_markdown_digest url t).loopFiles,
      App.eligible f = true ∧ f.name ∉ App.common_files := by
  intro f hf
  rw [generate_eq] at hf
  obtain ⟨new, n1, _, _, n4⟩ :=
    genLoop_delta (App.precount t) (walkFiles App.IGNORED_DIRS t)
      ⟨0, 0, false, 0, App.commonPhase (rootFiles t)
        ⟨["# Repository Digest for " ++ url ++ "\n"], [], [], []⟩⟩
  rw [n1] at hf
  obtain ⟨cnew, _, _, _, c4, _⟩ :=
    commonFold_delta (rootFiles t) App.common_files
      ⟨["# Repository Digest for " ++ url ++ "\n"], [], [], []⟩
  rw [show (⟨0, 0, false, 0, App.commonPhase (rootFiles t)
        ⟨["# Repository Digest for " ++ url ++ "\n"], [], [], []⟩⟩ :
      App.GenState).res = App.commonPhase (rootFiles t)
        ⟨["# Repository Digest for " ++ url ++ "\n"], [], [], []⟩ from rfl,
    App.commonPhase, c4] at hf
  simp only [List.nil_append] at hf
  exact n4 f hf

/-- Every promoted file is a root file whose lowercased name matches a
priority name. -/
theorem generate_commonFiles_spec (url : String) (t : Entry) :
    ∀ f ∈ (App.generate_markdown_digest url t).commonFiles,
      f ∈ rootFiles t ∧ ∃ n ∈ App.common_files, lowerStr f.name = lowerStr n := by
  intro f hf
  rw [generate_eq] at hf
  obtain ⟨new, _, _, n3, _⟩ :=
    genLoop_delta (App.precount t) (walkFiles App.IGNORED_DIRS t)
      ⟨0, 0, false, 0, App.commonPhase (rootFiles t)
        ⟨["# Repository Digest for " ++ url ++ "\n"], [], [], []⟩⟩
  rw [n3] at hf
  obtain ⟨cnew, c1, _, _, _, c5⟩ :=
    commonFold_delta (rootFiles t) App.common_files
      ⟨["# Repository Digest for " ++ url ++ "\n"], [], [], []⟩
  rw [show (⟨0, 0, false, 0, App.commonPhase (rootFiles t)
        ⟨["# Repository Digest for " ++ url ++ "\n"], [], [], []⟩⟩ :
      App.GenState).res = App.commonPhase (rootFiles t)
        ⟨["# Repository Digest for " ++ url ++ "\n"], [], [], []⟩ from rfl,
    App.commonPhase, c1] at hf
  simp only [List.nil_append] at hf
  exact c5 f hf

/-- The digest is exactly: header line, promoted sections, loop sections. -/
theorem generate_parts_layout (url : String) (t : Entry) :
    (App.generate_markdown_digest url t).parts =
      ["# Repository Digest for " ++ url ++ "\n"] ++
        (App.generate_markdown_digest url t).commonFiles.flatMap App.commonSecParts ++
        (App.generate_markdown_digest url t).loopFiles.flatMap App.loopSecParts := by
  rw [generate_eq]
  obtain ⟨new, n1, n2, n3, _⟩ :=
    genLoop_delta (App.precount t) (walkFiles App.IGNORED_DIRS t)
      ⟨0, 0, false, 0, App.commonPhase (rootFiles t)
        ⟨["# Repository Digest for " ++ url ++ "\n"], [], [], []⟩⟩
  obtain ⟨cnew, c1, c2, _, c4, _⟩ :=
    commonFold_delta (rootFiles t) App.common_files
      ⟨["# Repository Digest for " ++ url ++ "\n"], [], [], []⟩
  rw [n2, n1, n3,
    show (⟨0, 0, false, 0, App.commonPhase (rootFiles t)
        ⟨["# Repository Digest for " ++ url ++ "\n"], [], [], []⟩⟩ :
      App.GenState).res = App.commonPhase (rootFiles t)
        ⟨["# Repository Digest for " ++ url ++ "\n"], [], [], []⟩ from rfl,
    App.commonPhase, c1, c2, c4]
  simp

/-- A file passing the ignore test has neither an ignored (lowercased)
extension nor an ignored name. -/
theorem isIgnoredFile_parts {f : FileCtx} (h : App.isIgnoredFile f = false) :
    lowerStr (pathSuffix f.name) ∉ App.IGNORED_FILES ∧
      f.name ∉ App.IGNORED_FILES := by
  revert h
  unfold App.isIgnoredFile
  by_cases h1 : lowerStr (pathSuffix f.name) ∈ App.IGNORED_FILES <;>
    by_cases h2 : f.name ∈ App.IGNORED_FILES <;> simp_all

/-- A file whose lowercased name matches one of the seven priority names has
a lowercased suffix among `.md`, `.txt` and the empty string, none of which
is in the ignore set. -/
theorem commonName_suffix_ok {f : FileCtx} {n : String} (hn : n ∈ App.common_files)
    (he : lowerStr f.name = lowerStr n) :
    lowerStr (pathSuffix f.name) ∉ App.IGNORED_FILES := by
  intro hmem
  rw [← pathSuffix_lowerStr, he] at hmem
  fin_cases hn <;> revert hmem <;> decide

/-- No entry of the legacy text allow-list is in the legacy ignore set. -/
theorem legacy_text_not_ignored :
    ∀ s ∈ Legacy.TEXT_EXTS, s ∉ Legacy.IGNORED_FILES := by decide

/-- A legacy content-loop file passed the name-ignore, size and text tests. -/
theorem legacy_contentFiles_spec (t : Entry) :
    ∀ f ∈ Legacy.contentFiles t,
      f.name ∉ Legacy.IGNORED_FILES ∧ f.size ≤ Legacy.MAX_FILE_SIZE ∧
        Legacy.is_text_file f.name = true := by
  intro f hf
  have h := (List.mem_filter.mp hf).2
  simp only [Bool.and_eq_true, decide_eq_true_eq] at h
  exact ⟨h.1.1, h.1.2, h.2⟩

/-! The ten claims. -/

/-- C1 is refuted as stated: the digest generation enumerates files in
directory-listing (`os.walk`) order and never sorts them; for a repository
whose listing is not lexicographically sorted, the produced file-content
sections (here both eligible files, under every ceiling) are not in
lexicographic path order. -/
theorem c1_counterexample :
    App.digestSectionPaths "u" exC1 = ["b.py", "a.py"] ∧
      ¬ List.Sorted pathLe (App.digestSectionPaths "u" exC1) := by
  exact ⟨by decide, by decide⟩

/-- C1 (amended): under the global count and aggregate-size ceilings, one run
of the traversal hands its callback exactly the classification-eligible
files — N entries for N eligible files — in the order the filesystem
enumerates them; that order is lexicographic only when the underlying
directory listing happens to be. -/
theorem c1_trace_exactly_eligible_in_walk_order (t : Entry)
    (hcount : ((walkFiles App.IGNORED_DIRS t).filter App.eligible).length ≤
      App.MAX_FILES)
    (hsize : (((walkFiles App.IGNORED_DIRS t).filter App.eligible).map
      FileCtx.size).sum ≤ App.MAX_TOTAL_SIZE_BYTES) :
    (App.trace_repo t).processed = (walkFiles App.IGNORED_DIRS t).filter App.eligible := by
  unfold App.trace_repo App.initTrace
  rw [traceFold_all (walkFiles App.IGNORED_DIRS t) 0 0 []
    (by simpa using hcount) (by simpa using hsize)]
  simp

theorem c1_witness :
    (((walkFiles App.IGNORED_DIRS exC1w).filter App.eligible).length ≤
      App.MAX_FILES) ∧
    ((((walkFiles App.IGNORED_DIRS exC1w).filter App.eligible).map
      FileCtx.size).sum ≤ App.MAX_TOTAL_SIZE_BYTES) ∧
    (App.trace_repo exC1w).processed =
      (walkFiles App.IGNORED_DIRS exC1w).filter App.eligible :=
  ⟨by decide, by decide,
    c1_trace_exactly_eligible_in_walk_order exC1w (by decide) (by decide)⟩

/-- C2: the digest generation is a pure function of the repository label and
the filesystem snapshot; two runs of either engine over identical state
produce byte-identical digest strings.  All run-to-run variation in the
source (walk order, dictionary order) is a function of the filesystem state,
which the claim holds fixed. -/
theorem c2_determinism (url : String) (t : Entry) :
    App.digestString url t = App.digestString url t ∧
      Legacy.digestString url t = Legacy.digestString url t :=
  ⟨rfl, rfl⟩

/-- C8: throughout the traversal — after any number of loop steps — the
files-seen counter never exceeds `MAX_FILES` and the bytes-seen counter never
exceeds `MAX_TOTAL_SIZE_BYTES`; and once the budget stop has fired, the state
absorbs every further file: nothing anywhere later in the walk is admitted or
handed to the callback. -/
theorem c8_ceilings_and_global_stop (t : Entry) (n : Nat) :
    ((((walkFiles App.IGNORED_DIRS t).take n).foldl App.traceStep
        App.initTrace).total_files ≤ App.MAX_FILES ∧
      (((walkFiles App.IGNORED_DIRS t).take n).foldl App.traceStep
        App.initTrace).total_size ≤ App.MAX_TOTAL_SIZE_BYTES) ∧
    ∀ (s : App.TraceState) (f : FileCtx), s.stopped = true →
      App.traceStep s f = s := by
  refine ⟨traceFold_bound _ App.initTrace (Nat.zero_le _) (Nat.zero_le _),
    fun s f h => traceStep_stopped f h⟩

theorem c8_witness :
    ((((walkFiles App.IGNORED_DIRS exC8w).take 1).foldl App.traceStep
        App.initTrace).total_files ≤ App.MAX_FILES ∧
      (((walkFiles App.IGNORED_DIRS exC8w).take 1).foldl App.traceStep
        App.initTrace).total_size ≤ App.MAX_TOTAL_SIZE_BYTES) ∧
    App.traceStep ⟨7, 9, [], true⟩ ⟨[], "c.py", 1, "C"⟩ = ⟨7, 9, [], true⟩ :=
  ⟨(c8_ceilings_and_global_stop exC8w 1).1,
    (c8_ceilings_and_global_stop exC8w 1).2 ⟨7, 9, [], true⟩ ⟨[], "c.py", 1, "C"⟩ rfl⟩

/-- C10: the allow-list entries `.Rmd` and `.S` are present but unreachable:
`is_text_file` lowercases the suffix before the membership test, `.rmd` and
`.s` are not in the allow-list, so a file with any letter-case variant of
those extensions (its lowercased suffix is `.rmd` or `.s`) is never
classified as text; and the digesting loop only ever sections files that
classify as text. -/
theorem c10_uppercase_allowlist_unreachable :
    (".Rmd" ∈ App.TEXT_EXTS ∧ ".S" ∈ App.TEXT_EXTS) ∧
    (∀ name : String,
      lowerStr (pathSuffix name) = ".rmd" ∨ lowerStr (pathSuffix name) = ".s" →
      App.is_text_file name = false) ∧
    (∀ (url : String) (t : Entry) (f : FileCtx),
      f ∈ (App.generate_markdown_digest url t).loopFiles →
      App.is_text_file f.name = true) := by
  refine ⟨by decide, ?_, ?_⟩
  · intro name h
    unfold App.is_text_file
    rcases h with h | h <;> rw [h] <;> decide
  · intro url t f hf
    exact (eligible_parts (generate_loopFiles_spec url t f hf).1).2.1

theorem c10_witness :
    ((lowerStr (pathSuffix "x.RMD") = ".rmd" ∨
        lowerStr (pathSuffix "x.RMD") = ".s") ∧
      App.is_text_file "x.RMD" = false) ∧
    ((⟨[], "k.py", 1, "K"⟩ : FileCtx) ∈
        (App.generate_markdown_digest "u" exC10t).loopFiles ∧
      App.is_text_file "k.py" = true) :=
  ⟨⟨Or.inl (by decide),
    c10_uppercase_allowlist_unreachable.2.1 "x.RMD" (Or.inl (by decide))⟩,
   ⟨by decide,
    c10_uppercase_allowlist_unreachable.2.2 "u" exC10t ⟨[], "k.py", 1, "K"⟩
      (by decide)⟩⟩

/-- C3 is refuted as stated: the pre-count applies no size ceiling, so a file
skipped later (here, one byte over the 15 MB per-file ceiling) leaves
`file_count` short of `total_files` and the progress sequence ends below 100
— here the only call is the common-file report at 5 percent. -/
theorem c3_counterexample :
    (App.generate_markdown_digest "u" exC3).calls = [("Processed README.md", 5)] ∧
    App.precount exC3 = 1 ∧
    (App.generate_markdown_digest "u" exC3).loopFiles = [] :=
  ⟨by decide, by decide, by decide⟩

theorem map_snd_processed (l : List FileCtx) :
    ((l.map fun f => (("Processed " ++ f.name, 5) : String × Nat)).map
      Prod.snd) = List.replicate l.length 5 := by
  induction l <;> simp_all [List.replicate_succ]

theorem chainLe_replicate (k c : Nat) :
    List.Chain' (· ≤ ·) (List.replicate k c) := by
  induction k with
  | zero => simp
  | succ n ih =>
    cases n with
    | zero => simp
    | succ m =>
      rw [List.replicate_succ, List.replicate_succ, List.chain'_cons]
      exact ⟨le_refl c, by rw [← List.replicate_succ]; exact ih⟩

/-- The full progress-call analysis for a digesting fold started on a result
whose calls so far are all at 5 percent. -/
theorem generate_calls_spec (T : Nat) (l : List FileCtx) (k : Nat)
    (r : App.GenResult) (hr : r.calls.map Prod.snd = List.replicate k 5)
    (hT : (l.filter App.precountP).length ≤ T) :
    List.Chain' (· ≤ ·)
      (((l.foldl (App.genStep T) ⟨0, 0, false, 0, r⟩).res.calls).map Prod.snd) ∧
    ∀ p ∈ ((l.foldl (App.genStep T) ⟨0, 0, false, 0, r⟩).res.calls).map Prod.snd,
      p ≤ 100 := by
  have hres : (⟨0, 0, false, 0, r⟩ : App.GenState).res = r := rfl
  have hfc : (⟨0, 0, false, 0, r⟩ : App.GenState).file_count = 0 := rfl
  have hmain := genLoop_calls T l ⟨0, 0, false, 0, r⟩
    (by rw [hres, hr]; exact chainLe_replicate k 5)
    (by rw [hres, hr, hfc]
        intro p hp
        have h5 : p = 5 := (List.eq_of_mem_replicate hp)
        simp [h5])
    (by rw [hfc]; simpa using hT)
  exact ⟨hmain.1, fun p hp =>
    le_trans (hmain.2.1 p hp) (hi_le_100 T hmain.2.2)⟩

/-- C3 (amended): within one run the percentages passed to the progress
callback form a non-decreasing sequence and never exceed 100, but the final
value need not be 100: it is 100 only when every pre-counted file is actually
processed.  (Terminal events are emitted by the websocket layer, not through
this callback.) -/
theorem c3_percentages_monotone_bounded (url : String) (t : Entry) :
    List.Chain' (· ≤ ·) (App.digestPercentages url t) ∧
      ∀ p ∈ App.digestPercentages url t, p ≤ 100 := by
  obtain ⟨cnew, _, _, c3, _, _⟩ :=
    commonFold_delta (rootFiles t) App.common_files
      ⟨["# Repository Digest for " ++ url ++ "\n"], [], [], []⟩
  have hr : (App.commonPhase (rootFiles t)
      ⟨["# Repository Digest for " ++ url ++ "\n"], [], [], []⟩).calls.map
        Prod.snd = List.replicate cnew.length 5 := by
    rw [App.commonPhase, c3]
    simpa using map_snd_processed cnew
  have hmain := generate_calls_spec (App.precount t)
    (walkFiles App.IGNORED_DIRS t) cnew.length _ hr
    (le_of_eq (by rw [App.precount]))
  constructor
  · rw [App.digestPercentages, generate_eq]
    exact hmain.1
  · intro p hp
    rw [App.digestPercentages, generate_eq] at hp
    exact hmain.2 p hp

theorem c3_witness :
    List.Chain' (· ≤ ·) (App.digestPercentages "u" exC3w) ∧
      100 ∈ App.digestPercentages "u" exC3w ∧ (100 : Nat) ≤ 100 :=
  ⟨(c3_percentages_monotone_bounded "u" exC3w).1, by decide,
    (c3_percentages_monotone_bounded "u" exC3w).2 100 (by decide)⟩

/-- C4 is refuted as stated: a root priority document whose name differs in
letter case from the canonical spelling (here `readme.md`) is promoted by the
case-insensitive lookup, yet the per-file loop's exclusion test is
case-sensitive (`path.name in common_files`), so the same document gets a
second content section. -/
theorem c4_counterexample :
    App.digestSectionPaths "u" exC4 = ["readme.md", "readme.md"] ∧
    lowerStr "readme.md" = lowerStr "README.md" ∧
    "readme.md" ∉ App.common_files :=
  ⟨by decide, by decide, by decide⟩

/-- C4 (amended): promoted priority-document sections always precede every
per-file section in the digest; the per-file loop excludes a file only when
its name equals a priority name exactly (case-sensitively); and every
promoted file is a root file whose lowercased name equals a lowercased
priority name, so a file not matching case-insensitively is never touched by
the promotion. -/
theorem c4_priority_promotion (url : String) (t : Entry) :
    ((App.generate_markdown_digest url t).parts =
      ["# Repository Digest for " ++ url ++ "\n"] ++
        (App.generate_markdown_digest url t).commonFiles.flatMap
          App.commonSecParts ++
        (App.generate_markdown_digest url t).loopFiles.flatMap
          App.loopSecParts) ∧
    (∀ f ∈ (App.generate_markdown_digest url t).loopFiles,
      f.name ∉ App.common_files) ∧
    (∀ f ∈ (App.generate_markdown_digest url t).commonFiles,
      f ∈ rootFiles t ∧ ∃ n ∈ App.common_files, lowerStr f.name = lowerStr n) :=
  ⟨generate_parts_layout url t,
    fun f hf => (generate_loopFiles_spec url t f hf).2,
    generate_commonFiles_spec url t⟩

theorem c4_witness :
    ((⟨[], "a.py", 1, "A"⟩ : FileCtx) ∈
        (App.generate_markdown_digest "u" exC4w).loopFiles ∧
      ("a.py" : String) ∉ App.common_files) ∧
    ((⟨[], "README.md", 2, "R"⟩ : FileCtx) ∈
        (App.generate_markdown_digest "u" exC4w).commonFiles ∧
      ((⟨[], "README.md", 2, "R"⟩ : FileCtx) ∈ rootFiles exC4w ∧
        ∃ n ∈ App.common_files, lowerStr "README.md" = lowerStr n)) :=
  ⟨⟨by decide, (c4_priority_promotion "u" exC4w).2.1 ⟨[], "a.py", 1, "A"⟩
      (by decide)⟩,
   ⟨by decide, (c4_priority_promotion "u" exC4w).2.2 ⟨[], "README.md", 2, "R"⟩
      (by decide)⟩⟩

/-- C5 is refuted as stated: `big.py` passes the ignore/allow-list
classification and is enumerated (pre-counted), is skipped by the per-file
size ceiling, and the returned digest is exactly the bare header — no
annotation, no truncation notice, no trace of the file. -/
theorem c5_counterexample :
    App.is_text_file "big.py" = true ∧
    App.MAX_FILE_SIZE < 15 * 1024 * 1024 + 1 ∧
    App.precount exC5 = 1 ∧
    App.digestString "u" exC5 = "# Repository Digest for u\n" :=
  ⟨by decide, by decide, by decide, by decide⟩

/-- C5 (amended): skipped files are reported to the process log only and the
digest carries no annotation for them: every digest consists of exactly the
header line, the promoted sections and one section per admitted (eligible and
within-budget) file; content skipped by any ceiling or filter is silently
absent from the digest. -/
theorem c5_skipped_content_silent (url : String) (t : Entry) :
    ((App.generate_markdown_digest url t).parts =
      ["# Repository Digest for " ++ url ++ "\n"] ++
        (App.generate_markdown_digest url t).commonFiles.flatMap
          App.commonSecParts ++
        (App.generate_markdown_digest url t).loopFiles.flatMap
          App.loopSecParts) ∧
    ∀ f ∈ (App.generate_markdown_digest url t).loopFiles,
      App.eligible f = true :=
  ⟨generate_parts_layout url t,
    fun f hf => (generate_loopFiles_spec url t f hf).1⟩

theorem c5_witness :
    ((App.generate_markdown_digest "u" exC5w).parts =
      ["# Repository Digest for u\n"] ++
        (App.generate_markdown_digest "u" exC5w).commonFiles.flatMap
          App.commonSecParts ++
        (App.generate_markdown_digest "u" exC5w).loopFiles.flatMap
          App.loopSecParts) ∧
    App.eligible ⟨[], "a.py", 1, "A"⟩ = true :=
  ⟨(c5_skipped_content_silent "u" exC5w).1,
    (c5_skipped_content_silent "u" exC5w).2 ⟨[], "a.py", 1, "A"⟩ (by decide)⟩

/-- C6 is refuted as stated: in the legacy engine — the one whose digest
contains a rendered tree — the tree loop skips a file only when its full name
is literally in the ignore set, so `x.png` (ignored extension `.png`) appears
as a tree line in the produced digest, although it never gets a content
section. -/
theorem c6_counterexample :
    ("    x.png" ∈ (Legacy.generate_markdown_digest "u" exC6).parts) ∧
    Legacy.digestString "u" exC6 =
      "# Codebase Digest for u\n\n## Directory Tree\n\n```\nr/\n    x.png\n```\n\n## Files and Content\n" ∧
    lowerStr (pathSuffix "x.png") ∈ Legacy.IGNORED_FILES :=
  ⟨by decide, by decide, by decide⟩

/-- C6 (amended): a file with an ignored extension never receives a content
section: in the current engine no promoted or loop section carries an ignored
(lowercased) extension — and the current engine's digest contains no tree at
all — while in the legacy engine every content-loop file is allow-listed text
and no allow-listed extension is in the ignore set; only the legacy tree
listing can still show such a file (by the counterexample). -/
theorem c6_ignored_ext_no_content_section (url : String) (t : Entry) :
    (∀ f ∈ (App.generate_markdown_digest url t).commonFiles ++
        (App.generate_markdown_digest url t).loopFiles,
      lowerStr (pathSuffix f.name) ∉ App.IGNORED_FILES) ∧
    ∀ f ∈ Legacy.contentFiles t,
      lowerStr (pathSuffix f.name) ∉ Legacy.IGNORED_FILES := by
  refine ⟨?_, ?_⟩
  · intro f hf
    rcases List.mem_append.mp hf with hf | hf
    · obtain ⟨_, n, hn, he⟩ := generate_commonFiles_spec url t f hf
      exact commonName_suffix_ok hn he
    · exact (isIgnoredFile_parts (eligible_parts
        (generate_loopFiles_spec url t f hf).1).1).1
  · intro f hf
    have htext := (legacy_contentFiles_spec t f hf).2.2
    have : lowerStr (pathSuffix f.name) ∈ Legacy.TEXT_EXTS := by
      revert htext
      unfold Legacy.is_text_file
      simp
    exact legacy_text_not_ignored _ this

theorem c6_witness :
    ((⟨[], "a.py", 1, "A"⟩ : FileCtx) ∈
        (App.generate_markdown_digest "u" exC6w).commonFiles ++
          (App.generate_markdown_digest "u" exC6w).loopFiles ∧
      lowerStr (pathSuffix "a.py") ∉ App.IGNORED_FILES) ∧
    ((⟨[], "a.py", 1, "A"⟩ : FileCtx) ∈ Legacy.contentFiles exC6w ∧
      lowerStr (pathSuffix "a.py") ∉ Legacy.IGNORED_FILES) :=
  ⟨⟨by decide, (c6_ignored_ext_no_content_section "u" exC6w).1
      ⟨[], "a.py", 1, "A"⟩ (by decide)⟩,
   ⟨by decide, (c6_ignored_ext_no_content_section "u" exC6w).2
      ⟨[], "a.py", 1, "A"⟩ (by decide)⟩⟩

/-- C7 is refuted as stated: no `is_symlink` check exists in the traversal; a
symlink to a regular file passes `path.is_file()`, is classified eligible,
and its target's content appears verbatim in the digest. -/
theorem c7_counterexample :
    App.tracePaths exC7 = ["s.py"] ∧
    App.digestString "u" exC7 = "# Repository Digest for u\n\n## s.py\nSECRET" :=
  ⟨by decide, by decide⟩

/-- C7 (amended): symlinked directories are never followed — the entire
digest output is unchanged when every symlinked directory's target subtree is
replaced by an empty one — but a symlink to a regular file is treated as an
ordinary file, so its target's content can appear in the digest. -/
theorem c7_linkdirs_never_followed (url : String) (t : Entry) :
    App.generate_markdown_digest url (scrubLinkDirs t) =
      App.generate_markdown_digest url t := by
  have hp : App.precount (scrubLinkDirs t) = App.precount t := by
    unfold App.precount
    rw [walkFiles_scrub]
  rw [generate_eq, generate_eq, rootFiles_scrub, walkFiles_scrub, hp]

/-- C9 is refuted as stated: the legacy tree (the only tree rendered into a
digest) uses four-space indentation, not `├──`/`└──` connectors, and does not
apply the file classification: `x.png` (ignored extension) appears as a tree
line while the content loop excludes it.  The ignored directory `.git` is
pruned. -/
theorem c9_counterexample :
    Legacy.print_tree exC9 = ["r/", "    x.png"] ∧
    Legacy.contentFiles exC9 = [] ∧
    lowerStr (pathSuffix "x.png") ∈ Legacy.IGNORED_FILES ∧
    ".git" ∈ Legacy.IGNORED_DIRS :=
  ⟨by decide, by decide, by decide, by decide⟩

/-- C9 (amended): the rendered tree prunes ignored directories together with
their whole subtrees — deleting them from the snapshot changes no tree line —
while files are omitted from the tree only on an exact name match against the
ignore set, and the tree is indented with four spaces per level, without
connector glyphs. -/
theorem c9_tree_prunes_ignored_dirs (t : Entry) :
    Legacy.print_tree (pruneDirs Legacy.IGNORED_DIRS t) = Legacy.print_tree t := by
  unfold Legacy.print_tree
  rw [visits_prune]

end GitScape
